import Mathlib

/-!
Verification development for the swiftide-tutorial pipelines.

The repository contains three binaries wiring the swiftide library into
ingestion and query pipelines:
  * `src/src/main.rs` — basic tutorial: index markdown, then index code.
  * `src/indexing-and-querying-code/src/main.rs` — ingestion with a Redis
    dedup cache and branch/merge, plus a manual query function.
  * `src/ragas/src/main.rs` — ingestion plus a Ragas evaluation query
    pipeline with optional ground-truth recording.

Definitions below are shallow embeddings of the source functions.  Stage
mechanics provided by the swiftide library (chunkers, split/merge, the
cache filter, batch embedding, the Ragas evaluator) are not part of this
repository; those are modelled from the spec, and each such definition
carries a doc comment saying so.
-/

/-! ## Data model -/

/-- One input unit: a file with a path and raw content (spec §3, Item). -/
structure Item where
  path : String
  content : String
deriving DecidableEq, Repr

/-- Result of loading one candidate file: either a loaded Item or a load
failure (spec §2, Item Source: "each either a loaded item or a load
failure"). -/
inductive LoadResult where
  | failed (err : String)
  | loaded (it : Item)
deriving DecidableEq, Repr

/-- The unit written to the vector store: identifier derived from item path
plus chunk offset, and the chunk text (spec §3, StoredRecord). -/
structure StoredRecord where
  id : String × Nat
  text : String
deriving DecidableEq, Repr

/-! ## Path extensions and the split predicate (from the source) -/

/-- Split a character list on a separator character, mirroring how a path
string is decomposed into components.  Structural recursion so that the
kernel can evaluate it on concrete inputs. -/
def splitOnChar (sep : Char) : List Char → List (List Char)
  | [] => [[]]
  | c :: rest =>
      let groups := splitOnChar sep rest
      if c = sep then [] :: groups
      else
        match groups with
        | [] => [[c]]
        | g :: gs => (c :: g) :: gs

/-- Embedding of Rust `Path::extension()`: the extension of the final path
component, `None` when the file name has no dot or when the only dot is the
leading dot of a hidden file. -/
def pathExtension (path : String) : Option String :=
  let fileName := ((splitOnChar '/' path.data).filter (fun s => s ≠ [])).getLastD []
  match splitOnChar '.' fileName with
  | [] => none
  | [_] => none
  | first :: restParts =>
      if first = [] ∧ restParts.length = 1 then none
      else some (String.mk (restParts.getLastD []))

/-- The branch predicate of `index_all` (src/indexing-and-querying-code and
src/ragas): a load error routes to the markdown branch (`true`); otherwise
route by `node.path.extension().map_or(true, |ext| ext == "md")`. -/
def splitPred (node : LoadResult) : Bool :=
  match node with
  | .failed _ => true
  | .loaded n => (pathExtension n.path).elim true (fun ext => ext == "md")

/-! ## Query function of src/indexing-and-querying-code (from the source) -/

/-- A scored search result from the vector store, carrying a payload map. -/
structure ScoredPoint where
  payload : List (String × String)
deriving DecidableEq, Repr

/-- Lookup of a payload key, embedding `v.payload.get("content")`. -/
def payloadGet (payload : List (String × String)) (key : String) : Option String :=
  (payload.find? (fun kv => kv.1 == key)).map (fun kv => kv.2)

/-- Embedding of the content-extraction loop of `query`:
`.map(|v| v.payload.get("content").unwrap().to_string()).collect()`.
The `unwrap` panics when a payload lacks the key; the panic is modelled as
`none`, the fully collected list as `some`. -/
def extractContents : List ScoredPoint → Option (List String)
  | [] => some []
  | p :: rest =>
      match payloadGet p.payload "content", extractContents rest with
      | some c, some cs => some (c :: cs)
      | _, _ => none

/-- Embedding of Rust `Vec::join(sep)` used to concatenate the found
chunks with a blank line between them. -/
def joinSep (sep : String) : List String → String
  | [] => ""
  | [x] => x
  | x :: y :: rest => x ++ sep ++ joinSep sep (y :: rest)

/-- The fixed text of the answer prompt before the question (from the
`formatdoc!` template in `query`). -/
def answerPromptPre : String :=
  "Answer the following question(s):\n"

/-- The fixed text of the answer prompt between the question and the
context: the constraint block and the context heading (from the
`formatdoc!` template in `query`). -/
def answerPromptConstraints : String :=
  "\n\n## Constraints\n* Only answer based on the provided context below\n* Always reference files by the full path if it is relevant to the question\n* Answer the question fully and remember to be concise\n* Only answer based on the given context. If you cannot answer the question based on the\n    context, say so.\n* Do not make up anything, especially code, that is not included in the provided context\n\n## Context:\n"

/-- The grounding prompt of `query`: the template applied to the question
and the concatenated retrieved context, exactly as in the source. -/
def answerPrompt (question answerContext : String) : String :=
  answerPromptPre ++ question ++ answerPromptConstraints ++ answerContext ++ "\n"

/-- External collaborators of the `query` function: the prompt-rewriting
model, the embedding model, the vector-store search and the completion
model (spec §6 interfaces).  Vectors are abstracted as integer lists. -/
structure QueryEnv where
  transform : String → String
  embedText : String → List Int
  search : List Int → List ScoredPoint
  complete : String → String

/-- Outcome of one run of `query`: either the process crashed on the
`unwrap` of a missing payload key, or it returned an answer. -/
inductive QueryOutcome where
  | crashed
  | answered (answer : String)
deriving DecidableEq, Repr

/-- Embedding of `query` (src/indexing-and-querying-code): rewrite the
question, embed the rewrite, search, extract every payload content
(crashing when one is missing), build the grounding prompt, complete. -/
def runQuery (env : QueryEnv) (question : String) : QueryOutcome :=
  let transformed := env.transform question
  let embedded := env.embedText transformed
  let points := env.search embedded
  match extractContents points with
  | none => .crashed
  | some contents =>
      .answered (env.complete (answerPrompt question (joinSep "\n\n" contents)))

/-! ## Collection deletion of src/ragas (from the source) -/

/-- The collection name constant of src/ragas. -/
def COLLECTION_NAME : String := "swiftide-ragas"

/-- The vector-store `delete_collection` interface (spec §6): deleting an
absent collection is an error at the client level; the state is the list of
existing collection names. -/
def deleteCollection (collections : List String) (name : String) :
    Except String (List String) :=
  if name ∈ collections then .ok (collections.filter (fun c => c ≠ name))
  else .error "collection does not exist"

/-- Embedding of `force_delete_qdrant_collection` (src/ragas): the result
of `delete_collection` is discarded with `let _ =` and the function returns
`Ok(())` unconditionally.  Returns the resulting store state and the
returned Result. -/
def force_delete_qdrant_collection (collections : List String) :
    List String × Except String Unit :=
  match deleteCollection collections COLLECTION_NAME with
  | .ok rest => (rest, .ok ())
  | .error _ => (collections, .ok ())

/-! ## Infix helper lemmas -/

theorem isInfixOfAppendLeft {α : Type} {l m : List α} (n : List α)
    (h : l <:+: m) : l <:+: m ++ n := by
  rcases h with ⟨s, t, rfl⟩
  exact ⟨s, t ++ n, by simp⟩

theorem isInfixOfAppendRight {α : Type} {l m : List α} (n : List α)
    (h : l <:+: m) : l <:+: n ++ m := by
  rcases h with ⟨s, t, rfl⟩
  exact ⟨n ++ s, t, by simp⟩

theorem mem_joinSep_isInfixOf (sep : String) (c : String) :
    ∀ cs : List String, c ∈ cs → c.data <:+: (joinSep sep cs).data
  | [], h => absurd h (List.not_mem_nil c)
  | [x], h => by
      rcases List.mem_singleton.mp h with rfl
      exact List.infix_refl _
  | x :: y :: rest, h => by
      rcases List.mem_cons.mp h with rfl | h2
      · show c.data <:+: (c ++ sep ++ joinSep sep (y :: rest)).data
        have : (c ++ sep ++ joinSep sep (y :: rest)).data
            = c.data ++ (sep.data ++ (joinSep sep (y :: rest)).data) := by
          show (c ++ sep ++ joinSep sep (y :: rest)).data = _
          simp [String.data_append]
        rw [this]
        exact isInfixOfAppendLeft _ (List.infix_refl _)
      · have ih := mem_joinSep_isInfixOf sep c (y :: rest) h2
        show c.data <:+: (x ++ sep ++ joinSep sep (y :: rest)).data
        have : (x ++ sep ++ joinSep sep (y :: rest)).data
            = (x.data ++ sep.data) ++ (joinSep sep (y :: rest)).data := by
          simp [String.data_append]
        rw [this]
        exact isInfixOfAppendRight _ ih

/-! ## Claim theorems (source-based) -/

/-- C8: `force_delete_qdrant_collection` returns `Ok` for every state of
the vector store; absence of the collection is not an error, and the
collection is absent afterwards in every case. -/
theorem forceDelete_always_ok (collections : List String) :
    (force_delete_qdrant_collection collections).2 = .ok () := by
  unfold force_delete_qdrant_collection
  unfold deleteCollection
  by_cases h : COLLECTION_NAME ∈ collections <;> simp [h]

/-- C10: the `query` function crashes (models the `unwrap` panic) exactly
when some search result lacks the "content" payload key; it returns an
answer only when every retrieved record carries a "content" payload. -/
theorem query_crashes_iff_missing_content (env : QueryEnv) (question : String) :
    runQuery env question = .crashed ↔
      ∃ p ∈ env.search (env.embedText (env.transform question)),
        payloadGet p.payload "content" = none := by
  have main : ∀ points : List ScoredPoint,
      extractContents points = none ↔
        ∃ p ∈ points, payloadGet p.payload "content" = none := by
    intro points
    induction points with
    | nil => simp [extractContents]
    | cons p rest ih =>
        simp only [extractContents]
        cases hp : payloadGet p.payload "content" with
        | none => simp [hp]
        | some c =>
            cases hr : extractContents rest with
            | none =>
                have hex := ih.mp hr
                constructor
                · intro _
                  obtain ⟨q, hq, hqn⟩ := hex
                  exact ⟨q, List.mem_cons_of_mem p hq, hqn⟩
                · intro _
                  rfl
            | some cs =>
                constructor
                · intro h
                  exact absurd h (by simp)
                · rintro ⟨q, hq, hqn⟩
                  rcases List.mem_cons.mp hq with rfl | hmem
                  · rw [hp] at hqn
                    exact absurd hqn (by simp)
                  · have hnone := ih.mpr ⟨q, hmem, hqn⟩
                    rw [hnone] at hr
                    exact absurd hr (by simp)
  have hrun : runQuery env question = QueryOutcome.crashed ↔
      extractContents (env.search (env.embedText (env.transform question))) = none := by
    unfold runQuery
    cases h : extractContents (env.search (env.embedText (env.transform question))) <;>
      simp [h]
  rw [hrun]
  exact main _

/-- C6: the grounding prompt of `query` contains every retrieved content
string, and equals exactly the fixed template applied to the question and
the joined retrieved contents — nothing else enters the prompt. -/
theorem answer_prompt_exact_context (question : String) (contents : List String) :
    (∀ c ∈ contents,
      c.data <:+: (answerPrompt question (joinSep "\n\n" contents)).data) ∧
    answerPrompt question (joinSep "\n\n" contents) =
      answerPromptPre ++ question ++ answerPromptConstraints ++
        joinSep "\n\n" contents ++ "\n" := by
  refine ⟨?_, rfl⟩
  intro c hc
  have hjoin := mem_joinSep_isInfixOf "\n\n" c contents hc
  have : (answerPrompt question (joinSep "\n\n" contents)).data
      = ((answerPromptPre ++ question ++ answerPromptConstraints).data
          ++ (joinSep "\n\n" contents).data) ++ ("\n" : String).data := by
    simp [answerPrompt, String.data_append]
  rw [this]
  exact isInfixOfAppendLeft _ (isInfixOfAppendRight _ hjoin)

/-- C6 witness: a concrete retrieved content is an infix of the concrete
prompt. -/
theorem answer_prompt_exact_context_witness :
    ("the chunk text".data
      <:+: (answerPrompt "what is this" (joinSep "\n\n" ["the chunk text"])).data) :=
  (answer_prompt_exact_context "what is this" ["the chunk text"]).1
    "the chunk text" (by simp)

/-! ## Chunker (modelled from the spec) -/

/-- Modelled from the spec (§4.4): the chunkers `ChunkMarkdown` and
`ChunkCode` live in the swiftide library, not in this repository.  Per the
spec, segmentation recombines content-aware fragments "to respect size
bounds as closely as possible"; this step slices a fragment into pieces of
at most `maxSize` characters. -/
def splitMaxAux (fuel maxSize : Nat) (cs : List Char) : List (List Char) :=
  match fuel with
  | 0 => if cs.isEmpty then [] else [cs]
  | fuel + 1 =>
      if cs.length ≤ maxSize ∨ maxSize = 0 then
        if cs.isEmpty then [] else [cs]
      else
        cs.take maxSize :: splitMaxAux fuel maxSize (cs.drop maxSize)

/-- Slice a fragment into pieces of at most `maxSize` characters.  The fuel
equals the fragment length, which always suffices: each recursive step
removes at least one character when `maxSize` is positive. -/
def splitMax (maxSize : Nat) (cs : List Char) : List (List Char) :=
  splitMaxAux cs.length maxSize cs

/-- Modelled from the spec (§4.4, §3): `chunk(content, size_range)` applied
to the content-aware segments of an item: each segment is sliced to the
maximum size and every candidate below `minSize` is discarded, never
emitted downstream. -/
def chunkText (minSize maxSize : Nat) (segments : List (List Char)) : List (List Char) :=
  ((segments.map (splitMax maxSize)).flatten).filter (fun c => minSize ≤ c.length)

theorem splitMaxAux_length_le (maxSize : Nat) (hmax : 0 < maxSize) :
    ∀ fuel : Nat, ∀ cs : List Char, cs.length ≤ fuel →
      ∀ c ∈ splitMaxAux fuel maxSize cs, c.length ≤ maxSize := by
  intro fuel
  induction fuel with
  | zero =>
      intro cs hlen c hc
      have : cs = [] := List.eq_nil_of_length_eq_zero (Nat.le_zero.mp hlen)
      subst this
      simp [splitMaxAux] at hc
  | succ fuel ih =>
      intro cs hlen c hc
      simp only [splitMaxAux] at hc
      by_cases hcond : cs.length ≤ maxSize ∨ maxSize = 0
      · rw [if_pos hcond] at hc
        by_cases hemp : cs.isEmpty
        · rw [if_pos hemp] at hc
          exact absurd hc (List.not_mem_nil c)
        · rw [if_neg hemp] at hc
          rcases List.mem_singleton.mp hc with rfl
          rcases hcond with hle | hzero
          · exact hle
          · omega
      · rw [if_neg hcond] at hc
        simp only [not_or] at hcond
        rcases List.mem_cons.mp hc with rfl | hmem
        · simp only [List.length_take]
          omega
        · have hdrop : (cs.drop maxSize).length ≤ fuel := by
            simp only [List.length_drop]
            omega
          exact ih (cs.drop maxSize) hdrop c hmem

theorem splitMax_length_le (maxSize : Nat) (hmax : 0 < maxSize) :
    ∀ cs : List Char, ∀ c ∈ splitMax maxSize cs, c.length ≤ maxSize := by
  intro cs c hc
  exact splitMaxAux_length_le maxSize hmax cs.length cs (Nat.le_refl _) c hc

/-! ## Branch router and merger (modelled from the spec) -/

/-- Modelled from the spec (§4.3): `split_by(predicate)` is library code;
per the spec it returns two handles sharing the upstream, the first
emitting the units for which the predicate holds (here: markdown), the
second the rest (here: code); per-branch order is preserved. -/
def splitBy {α : Type} (pred : α → Bool) (stream : List α) : List α × List α :=
  (stream.filter pred, stream.filter (fun u => !pred u))

/-- Modelled from the spec (§4.3): `merge` is library code; per the spec it
emits a single stream holding the content of both branches (order across
branches is not guaranteed; this model appends). -/
def mergeStreams {α : Type} (b1 b2 : List α) : List α := b1 ++ b2

/-! ## Claim theorems: chunking and branching -/

/-- C1: every chunk emitted by a chunking stage configured with range
`minSize..maxSize` satisfies `minSize ≤ len ≤ maxSize`; candidates below
the minimum are removed by the final filter, so none is ever emitted
downstream. -/
theorem chunk_bounds (minSize maxSize : Nat) (hmax : 0 < maxSize)
    (segments : List (List Char)) :
    ∀ c ∈ chunkText minSize maxSize segments,
      minSize ≤ c.length ∧ c.length ≤ maxSize := by
  intro c hc
  unfold chunkText at hc
  have hfilter := List.of_mem_filter hc
  have hmem := List.mem_of_mem_filter hc
  refine ⟨by simpa using hfilter, ?_⟩
  rcases List.mem_flatten.mp hmem with ⟨group, hgroup, hcg⟩
  rcases List.mem_map.mp hgroup with ⟨seg, _, rfl⟩
  exact splitMax_length_le maxSize hmax seg c hcg

/-- C1 witness: with the tutorial range 50..1024, a 60-character segment
yields one chunk within bounds, and a 10-character segment is dropped. -/
theorem chunk_bounds_witness :
    0 < 1024 ∧
    (∀ c ∈ chunkText 50 1024 [List.replicate 60 'a', List.replicate 10 'b'],
      50 ≤ c.length ∧ c.length ≤ 1024) ∧
    chunkText 50 1024 [List.replicate 60 'a', List.replicate 10 'b']
      = [List.replicate 60 'a'] :=
  ⟨by decide, chunk_bounds 50 1024 (by decide) _, by decide⟩

/-- C2: every unit entering `split_by` with the source predicate appears in
exactly one of the two branches (membership in a branch matches the
predicate value, and no unit is in both); a unit that failed to load is
always routed to the markdown branch; and merging the two branches is a
permutation of the input stream — the union with no duplicates and no
drops. -/
theorem split_merge_complete (stream : List LoadResult) :
    (∀ u, (u ∈ (splitBy splitPred stream).1 → splitPred u = true) ∧
          (u ∈ (splitBy splitPred stream).2 → splitPred u = false) ∧
          ¬(u ∈ (splitBy splitPred stream).1 ∧ u ∈ (splitBy splitPred stream).2)) ∧
    (∀ err, splitPred (.failed err) = true) ∧
    List.Perm
      (mergeStreams (splitBy splitPred stream).1 (splitBy splitPred stream).2)
      stream := by
  refine ⟨?_, fun _ => rfl, ?_⟩
  · intro u
    refine ⟨?_, ?_, ?_⟩
    · intro hu
      exact List.of_mem_filter hu
    · intro hu
      simpa using List.of_mem_filter hu
    · rintro ⟨h1, h2⟩
      have e1 : splitPred u = true := List.of_mem_filter h1
      have e2 := List.of_mem_filter h2
      rw [e1] at e2
      exact absurd e2 (by decide)
  · exact List.filter_append_perm splitPred stream

/-- C2 witness: on a concrete stream of one failed load, one markdown item
and one code item, the failed load is in the markdown branch and the merge
is a permutation of the input. -/
theorem split_merge_complete_witness :
    (LoadResult.failed "io error"
        ∈ (splitBy splitPred [LoadResult.failed "io error",
            LoadResult.loaded ⟨"a.md", "x"⟩, LoadResult.loaded ⟨"b.rs", "y"⟩]).1
      → splitPred (LoadResult.failed "io error") = true) ∧
    List.Perm
      (mergeStreams
        (splitBy splitPred [LoadResult.failed "io error",
            LoadResult.loaded ⟨"a.md", "x"⟩, LoadResult.loaded ⟨"b.rs", "y"⟩]).1
        (splitBy splitPred [LoadResult.failed "io error",
            LoadResult.loaded ⟨"a.md", "x"⟩, LoadResult.loaded ⟨"b.rs", "y"⟩]).2)
      [LoadResult.failed "io error",
        LoadResult.loaded ⟨"a.md", "x"⟩, LoadResult.loaded ⟨"b.rs", "y"⟩] :=
  ⟨((split_merge_complete _).1 _).1, (split_merge_complete _).2.2⟩

/-! ## Dedup cache and ingestion run (modelled from the spec) -/

/-- Modelled from the spec (glossary; §4.2): the fingerprint is "a stable
hash of an Item identity+content", computed from (path, content).  The
concrete hash lives in the swiftide cache filter, not in this repository;
any injective function of (path, content) represents it. -/
def fingerprint (it : Item) : String := it.path ++ "\x00" ++ it.content

/-- State of the external dedup cache (spec §3, DedupCache; §6): either the
backing store is unavailable, or it is available and holds a set of seen
fingerprints. -/
inductive CacheState where
  | unavailable
  | available (seen : List String)
deriving DecidableEq, Repr

/-- Modelled from the spec (§4.2, §6): `contains(fingerprint) -> bool`;
"cache unavailability must not abort the run — it degrades to treat every
item as unseen (fail-open)". -/
def cacheContains : CacheState → String → Bool
  | .unavailable, _ => false
  | .available seen, fp => seen.contains fp

/-- Observable work of one ingestion run: the StoredRecords written, the
number of enrichment calls issued, and the number of chunk texts handed to
the batch embedder. -/
structure RunStats where
  stored : List StoredRecord
  enrichCalls : Nat
  embedTexts : Nat
deriving DecidableEq, Repr

def emptyStats : RunStats :=
  { stored := [], enrichCalls := 0, embedTexts := 0 }

def RunStats.append (a b : RunStats) : RunStats :=
  { stored := a.stored ++ b.stored
  , enrichCalls := a.enrichCalls + b.enrichCalls
  , embedTexts := a.embedTexts + b.embedTexts }

/-- Modelled from the spec (§4.1, §4.5, §4.6, §4.8): past the dedup filter
an Item is chunked; each surviving chunk costs one enrichment call,
contributes one text to the batch embedder, and yields one StoredRecord
keyed by item path plus chunk offset. -/
def processItem (chunker : String → List String) (it : Item) : RunStats :=
  let chunks := chunker it.content
  { stored := chunks.enum.map (fun oc => { id := (it.path, oc.1), text := oc.2 })
  , enrichCalls := chunks.length
  , embedTexts := chunks.length }

/-- Modelled from the spec (§4.1, §4.2): the run drives every Item to a
terminal state; an Item whose fingerprint is in the dedup cache is dropped
before chunking and contributes no downstream work. -/
def runItems (cache : CacheState) (chunker : String → List String) :
    List Item → RunStats
  | [] => emptyStats
  | it :: rest =>
      (if cacheContains cache (fingerprint it) then emptyStats
       else processItem chunker it).append (runItems cache chunker rest)

/-- Modelled from the spec (§7): vector store unreachable at startup is
fatal — the run cannot proceed without a destination; the cache state never
makes the run fail. -/
def runIngestion (storeAvailable : Bool) (cache : CacheState)
    (chunker : String → List String) (items : List Item) :
    Except String RunStats :=
  if storeAvailable then .ok (runItems cache chunker items)
  else .error "vector store unreachable"

theorem emptyStats_append (b : RunStats) : emptyStats.append b = b := by
  simp [RunStats.append, emptyStats]

/-! ## Basic tutorial binary (src/src/main.rs) -/

/-- The parsed command-line arguments of the basic tutorial binary:
a language, a path, and a required positional query. -/
structure Args where
  language : String
  path : String
  query : String
deriving DecidableEq, Repr

/-- External collaborators of the basic tutorial binary: the file loaders
for markdown and for the language extensions, the two chunkers, and whether
`SupportedLanguages::from_str` accepts the language string. -/
structure TutorialEnv where
  mdLoader : String → List Item
  codeLoader : String → String → List Item
  chunkMd : String → List String
  chunkCode : String → List String
  languageSupported : String → Bool

/-- Embedding of `index_markdown` (src/src/main.rs): load the markdown
files under the path and run the ingestion pipeline over them.  The basic
tutorial has no dedup filter, modelled as an available cache that has seen
nothing. -/
def index_markdown (env : TutorialEnv) (path : String) : Except String RunStats :=
  runIngestion true (.available []) env.chunkMd (env.mdLoader path)

/-- Embedding of `index_code` (src/src/main.rs): parse the language (an
unsupported language is an error propagated by `?`), then load the files
with the language extensions and run the ingestion pipeline over them. -/
def index_code (env : TutorialEnv) (language : String) (path : String) :
    Except String RunStats :=
  if env.languageSupported language then
    runIngestion true (.available []) env.chunkCode (env.codeLoader language path)
  else
    .error "unsupported language"

/-- Embedding of `main` (src/src/main.rs): index markdown, then index
code; `args.query` is parsed but never read. -/
def tutorialMain (env : TutorialEnv) (args : Args) :
    Except String (RunStats × RunStats) := do
  let md ← index_markdown env args.path
  let code ← index_code env args.language args.path
  .ok (md, code)

/-! ## Batch embedding stage (modelled from the spec) -/

/-- A chunk as seen by the embedder: text plus accumulated metadata
(spec §3, Chunk). -/
structure ChunkUnit where
  text : String
  metadata : List (String × String)
deriving DecidableEq, Repr

/-- Modelled from the spec (§4.6, §6): the `Embed` stage is library code;
per the spec the batching stage issues ONE embedding request for the whole
batch and pairs the returned vectors back with the chunks in order; a
failing call (`none`) fails the batch as a whole. -/
def embedBatch (client : List String → Option (List (List Int)))
    (chunks : List ChunkUnit) : Option (List (ChunkUnit × List Int)) :=
  (client (chunks.map (fun c => c.text))).map (fun vecs => chunks.zip vecs)

/-! ## Ragas evaluation query pipeline (modelled from the spec) -/

/-- One entry of the evaluation dataset (spec §3, EvaluationDataset):
question, retrieved context, generated answer, optional ground truth. -/
structure EvalEntry where
  question : String
  retrievedContext : List String
  answer : Option String
  groundTruth : Option String
deriving DecidableEq, Repr

/-- Modelled from the spec (§4.9): `pipeline.query_all` answers every
prepared question; the evaluator records the retrieved context and the
generated answer on the entry of that question.  The pipeline run is
abstracted as a function from question to (context, answer). -/
def answerAll (pipelineRun : String → List String × String)
    (dataset : List EvalEntry) : List EvalEntry :=
  dataset.map (fun e =>
    { e with
      retrievedContext := (pipelineRun e.question).1
      answer := some (pipelineRun e.question).2 })

/-- Modelled from the spec (§4.9, evaluator tap): when "record ground
truth" is enabled, `record_answers_as_ground_truth` copies the generated
answer into the ground-truth slot of the same dataset entry. -/
def recordAnswersAsGroundTruth (dataset : List EvalEntry) : List EvalEntry :=
  dataset.map (fun e => { e with groundTruth := e.answer })

/-- Embedding of `query` (src/ragas): run the query pipeline over all
dataset questions, then copy answers into the ground-truth slots only when
the flag is set. -/
def ragasQuery (pipelineRun : String → List String × String)
    (recordGroundTruth : Bool) (dataset : List EvalEntry) : List EvalEntry :=
  let answered := answerAll pipelineRun dataset
  if recordGroundTruth then recordAnswersAsGroundTruth answered else answered

/-! ## Claim theorems: dedup, fail-open, query argument, batching, ragas -/

/-- C3: an Item whose fingerprint is already in the dedup cache contributes
zero StoredRecords, zero enrichment calls and zero embed texts — the run
over `it :: rest` equals the run over `rest` alone; an Item with an unseen
fingerprint proceeds through the full per-item pipeline. -/
theorem dedup_cached_item_no_work (cache : CacheState)
    (chunker : String → List String) (it : Item) (rest : List Item) :
    (cacheContains cache (fingerprint it) = true →
        runItems cache chunker (it :: rest) = runItems cache chunker rest) ∧
    (cacheContains cache (fingerprint it) = false →
        runItems cache chunker (it :: rest)
          = (processItem chunker it).append (runItems cache chunker rest)) := by
  constructor
  · intro h
    simp [runItems, h, emptyStats_append]
  · intro h
    simp [runItems, h]

/-- C3 witness: with the fingerprint of `b.py` already cached, re-running
ingestion over `[b.py]` does the same work as running over nothing. -/
theorem dedup_cached_item_no_work_witness :
    runItems (.available [fingerprint ⟨"b.py", "def f(): pass"⟩])
        (fun s => [s]) [⟨"b.py", "def f(): pass"⟩]
      = runItems (.available [fingerprint ⟨"b.py", "def f(): pass"⟩])
        (fun s => [s]) [] :=
  (dedup_cached_item_no_work _ _ _ _).1 (by decide)

/-- C7: with the vector store reachable, an unavailable dedup cache does
not abort the run — ingestion returns Ok and degrades to treating every
item as unseen, behaving exactly like a run over an empty available
cache. -/
theorem cache_fail_open (chunker : String → List String) (items : List Item) :
    runIngestion true .unavailable chunker items
      = runIngestion true (.available []) chunker items ∧
    ∃ stats, runIngestion true CacheState.unavailable chunker items
      = .ok stats := by
  have hitems : ∀ is : List Item,
      runItems .unavailable chunker is = runItems (.available []) chunker is := by
    intro is
    induction is with
    | nil => rfl
    | cons it rest ih =>
        simp only [runItems, cacheContains]
        rw [ih]
        rfl
  refine ⟨?_, ⟨runItems .unavailable chunker items, ?_⟩⟩
  · show Except.ok _ = Except.ok _
    rw [hitems]
  · rfl

/-- C9: the required positional `query` argument of the basic tutorial
binary has no effect: two invocations differing only in `query` perform
the same indexing work and produce the same result. -/
theorem tutorial_query_arg_unused (env : TutorialEnv) (a1 a2 : Args)
    (hlang : a1.language = a2.language) (hpath : a1.path = a2.path) :
    tutorialMain env a1 = tutorialMain env a2 := by
  unfold tutorialMain index_markdown index_code
  rw [hlang, hpath]

/-- C9 witness: two concrete invocations differing only in the query
string produce the same result. -/
theorem tutorial_query_arg_unused_witness :
    tutorialMain
      { mdLoader := fun _ => [], codeLoader := fun _ _ => []
      , chunkMd := fun _ => [], chunkCode := fun _ => []
      , languageSupported := fun _ => true }
      { language := "rust", path := "./", query := "what is this" }
      = tutorialMain
      { mdLoader := fun _ => [], codeLoader := fun _ _ => []
      , chunkMd := fun _ => [], chunkCode := fun _ => []
      , languageSupported := fun _ => true }
      { language := "rust", path := "./", query := "another question" } :=
  tutorial_query_arg_unused _ _ _ rfl rfl

/-- C4: under the client interface contract (one vector per text on
success), the batch stage returns exactly one (chunk, vector) pair per
input chunk with the chunks in input order, and a failing call fails the
whole batch: the stage returns `none` exactly when the single client call
for the batch fails — never a proper subset of the chunks. -/
theorem embed_batch_order_cardinality
    (client : List String → Option (List (List Int))) (chunks : List ChunkUnit)
    (hclient : ∀ ts vs, client ts = some vs → vs.length = ts.length) :
    (∀ out, embedBatch client chunks = some out →
        out.length = chunks.length ∧ out.map Prod.fst = chunks) ∧
    (embedBatch client chunks = none ↔
        client (chunks.map (fun c => c.text)) = none) := by
  constructor
  · intro out hout
    unfold embedBatch at hout
    cases hc : client (chunks.map (fun c => c.text)) with
    | none =>
        rw [hc] at hout
        exact absurd hout (by simp)
    | some vecs =>
        rw [hc] at hout
        have hzip : chunks.zip vecs = out := by
          simpa using hout
        have hlen := hclient _ _ hc
        rw [List.length_map] at hlen
        have hle : chunks.length ≤ vecs.length := Nat.le_of_eq hlen.symm
        constructor
        · rw [← hzip, List.length_zip]
          omega
        · rw [← hzip]
          exact List.map_fst_zip chunks vecs hle
  · unfold embedBatch
    cases hc : client (chunks.map (fun c => c.text)) <;> simp [hc]

/-- C4 witness: a one-chunk batch with a well-behaved client yields one
pair carrying the chunk in order. -/
theorem embed_batch_order_cardinality_witness :
    ([((⟨"a", []⟩ : ChunkUnit), [(0 : Int)])].length
        = [(⟨"a", ([] : List (String × String))⟩ : ChunkUnit)].length)
      ∧ [((⟨"a", []⟩ : ChunkUnit), [(0 : Int)])].map Prod.fst
        = [(⟨"a", []⟩ : ChunkUnit)] :=
  (embed_batch_order_cardinality (fun ts => some (ts.map (fun _ => [0])))
    [⟨"a", []⟩]
    (by
      intro ts vs h
      cases h
      simp)).1
    [(⟨"a", []⟩, [0])] rfl

/-- C5: a Question that completes the query pipeline with retrieved
context and generated answer yields, with ground-truth recording enabled,
a dataset entry whose ground truth equals that answer; with recording
disabled the ground-truth slot is left unchanged. -/
theorem ragas_ground_truth_roundtrip
    (pipelineRun : String → List String × String)
    (dataset : List EvalEntry) (i : Nat) (e : EvalEntry)
    (h : dataset[i]? = some e) :
    (ragasQuery pipelineRun true dataset)[i]?
        = some { e with
            retrievedContext := (pipelineRun e.question).1
            answer := some (pipelineRun e.question).2
            groundTruth := some (pipelineRun e.question).2 } ∧
    (ragasQuery pipelineRun false dataset)[i]?
        = some { e with
            retrievedContext := (pipelineRun e.question).1
            answer := some (pipelineRun e.question).2 } := by
  constructor
  · simp [ragasQuery, recordAnswersAsGroundTruth, answerAll,
      List.getElem?_map, h]
  · simp [ragasQuery, answerAll, List.getElem?_map, h]

/-- C5 witness: one concrete question answered with "A" under recording
yields a dataset entry whose ground truth is "A". -/
theorem ragas_ground_truth_roundtrip_witness :
    (ragasQuery (fun _ => (["ctx"], "A")) true
        [{ question := "q", retrievedContext := [], answer := none
         , groundTruth := none }])[0]?
      = some { question := "q", retrievedContext := ["ctx"]
             , answer := some "A", groundTruth := some "A" } :=
  (ragas_ground_truth_roundtrip (fun _ => (["ctx"], "A"))
    [{ question := "q", retrievedContext := [], answer := none
     , groundTruth := none }] 0 _ rfl).1
